import Mathlib

/-!
Verification development for `src/agentstack_agents/agent.py` of the
coding-with-canvas repository.

The file shallowly embeds the program's logic over `Str := List Char`:

* the streaming fenced-code-block state machine inside `coding_agent`
  (lines 175-263 of agent.py): `processContent`, `runChunks`, `runLines`;
* the surrounding invocation logic (lines 95-268): `runAgent`;
* the buffered extractor `extract_code_blocks` (lines 28-43):
  `matchFence`, `findBlocks`, `extract_code_blocks`;
* the block-selection / naming heuristic of the buffered path, which has no
  implementation under src/ and is therefore modelled from the spec:
  `pick_block`, `derive_name`, `select_block`.

Machine strings are Python `str` values; we embed them as `List Char`.
-/

set_option maxHeartbeats 1000000
set_option maxRecDepth 4096

namespace CodingAgent

/-- Embedded string type: Python `str` as a list of characters. -/
abbrev Str := List Char

/-- The backtick character (written via its code point). -/
def backtick : Char := Char.ofNat 96

/-- The newline character. -/
def nl : Char := Char.ofNat 10

/-- The literal fence marker, Python string `"```"`. -/
def fence : Str := [backtick, backtick, backtick]

/-- Python `s.split(pat, 1)` when `pat` occurs in `s`: returns the text before
the first occurrence and the text after it; `none` when `pat` does not occur
(so `(splitOnce pat s).isSome` is Python's `pat in s`). -/
def splitOnce (pat : Str) : Str → Option (Str × Str)
  | [] => none
  | c :: rest =>
    if pat.isPrefixOf (c :: rest) then some ([], (c :: rest).drop pat.length)
    else
      match splitOnce pat rest with
      | some (b, a) => some (c :: b, a)
      | none => none

/-- Python whitespace recognized by `str.strip()` (ASCII cases). -/
def isPySpace (c : Char) : Bool :=
  c = ' ' || c = Char.ofNat 9 || c = nl || c = Char.ofNat 13
    || c = Char.ofNat 11 || c = Char.ofNat 12

/-- Python `str.strip()`. -/
def strip (s : Str) : Str :=
  ((s.dropWhile isPySpace).reverse.dropWhile isPySpace).reverse

/-- One step of Python `str.title()`: a character is uppercased when the
previous character is not alphabetic, lowercased otherwise. -/
def titleAux : Bool → Str → Str
  | _, [] => []
  | prevAlpha, c :: rest =>
    (if prevAlpha then c.toLower else c.toUpper) :: titleAux c.isAlpha rest

/-- Python `str.title()`. -/
def title (s : Str) : Str := titleAux false s

/-- Python `str.lower()`. -/
def lower (s : Str) : Str := s.map Char.toLower

/-- `f"{language.title()} Code"` (agent.py lines 229, 245, 254). -/
def artifactName (language : Str) : Str := title language ++ " Code".toList

/-- A part of an a2a message: either a `TextPart` or some other kind. -/
inductive Part where
  | text (s : Str)
  | nontext
deriving DecidableEq

/-- The events the agent yields (agent.py: plain strings, `AgentArtifact`s,
`AgentMessage`s and trajectory metadata).  Artifact ids are embedded as
naturals handed out by a counter; `create` is the artifact constructed at
lines 228-233, `update` the incremental artifact of lines 252-257, `final`
the closing artifact of lines 243-248. -/
inductive Event where
  | text (s : Str)
  | create (id : Nat) (name : Str) (content : Str)
  | update (id : Option Nat) (name : Str) (content : Str)
  | final (id : Option Nat) (name : Str) (content : Str)
  | message (s : Str)
  | trajectory (ttl : Str) (content : Str)
deriving DecidableEq

/-- What `context.store` receives (agent.py lines 95, 234, 266, 275). -/
inductive Stored where
  | input (parts : List Part)
  | message (s : Str)
  | artifact (id : Nat) (name : Str) (content : Str)
deriving DecidableEq

/-- The local state of the streaming loop (agent.py lines 175-180), plus the
counter backing fresh artifact-id generation. -/
structure StreamState where
  response_text : Str
  in_code_block : Bool
  code_buffer : Str
  language : Str
  artifact_id : Option Nat
  pre_code_text : Str
  next_id : Nat
deriving DecidableEq

/-- The initial values of agent.py lines 175-180. -/
def initState : StreamState :=
  { response_text := [], in_code_block := false, code_buffer := [],
    language := [], artifact_id := none, pre_code_text := [], next_id := 0 }

/-- Lines 216-224: parse the text following an opening fence marker into the
declared language and the first code slice.  If the remainder contains a
newline, the text before it (stripped, defaulting to `"text"`) is the
language and the rest the first code slice; otherwise the whole remainder is
tentatively the language and the code is empty. -/
def parseOpen (after : Str) : Str × Str :=
  match splitOnce [nl] after with
  | some (lang_line, code_start) =>
    (if strip lang_line = [] then "text".toList else strip lang_line, code_start)
  | none =>
    (if strip after = [] then "text".toList else strip after, [])

/-- The body of the streaming loop for one non-empty `content` string
(agent.py lines 207-260).  The source tests `if not in_code_block and "```"
in content ... elif in_code_block ... else`, which is the same case split as
below.  Returns the new state, the events yielded, and what was passed to
`context.store` (only the freshly created artifact, line 234). -/
def processContent (st0 : StreamState) (content : Str) :
    StreamState × List Event × List Stored :=
  let st := { st0 with response_text := st0.response_text ++ content }
  if st.in_code_block then
    match splitOnce fence content with
    | some (before, _after) =>
      -- lines 237-248: close the block; the text after the marker is dropped
      let st' := { st with code_buffer := st.code_buffer ++ before,
                           in_code_block := false }
      (st', [Event.final st.artifact_id (artifactName st.language) before], [])
    | none =>
      -- lines 249-257: continue the block
      let st' := { st with code_buffer := st.code_buffer ++ content }
      (st', [Event.update st.artifact_id (artifactName st.language) content], [])
  else
    match splitOnce fence content with
    | none =>
      -- lines 258-260: plain text
      (st, [Event.text content], [])
    | some (before, after) =>
      -- lines 211-234: open a block; `before` only accumulates in
      -- pre_code_text and is never yielded
      let st1 := { st with pre_code_text := st.pre_code_text ++ before }
      let lc := parseOpen after
      let id := st1.next_id
      let st' := { st1 with language := lc.1, code_buffer := lc.2,
                            in_code_block := true, artifact_id := some id,
                            next_id := id + 1 }
      (st',
       [Event.create id (artifactName lc.1) (fence ++ lc.1 ++ nl :: lc.2)],
       [Stored.artifact id (artifactName lc.1) (fence ++ lc.1 ++ nl :: lc.2)])

/-- The streaming parser applied to a sequence of already-extracted content
chunks, folding `processContent`. -/
def runChunks (st : StreamState) : List Str → StreamState × List Event × List Stored
  | [] => (st, [], [])
  | c :: cs =>
    let r1 := processContent st c
    let r2 := runChunks r1.1 cs
    (r2.1, r1.2.1 ++ r2.2.1, r1.2.2 ++ r2.2.2)

/-- The shape the streaming loop reads out of one parsed SSE JSON object:
`chunk_data["choices"][0].get("delta", {}).get("content", "")` (lines
204-206).  The dict `.get` defaults are folded in: an absent `"choices"`
key is the empty list, an absent `"delta"` or `"content"` is the empty
string. -/
structure DeltaObj where
  content : Str
deriving DecidableEq

/-- A parsed `data:` payload, reduced to the fields the loop reads. -/
structure ChunkData where
  choices : List DeltaObj
deriving DecidableEq

/-- One line of the upstream SSE stream: its raw text together with the
outcome of `json.loads` on `line[6:]` (`none` models `json.JSONDecodeError`).
The raw text is used only for the `startswith("data: ")` and `[DONE]`
tests. -/
structure Line where
  raw : Str
  parse : Option ChunkData
deriving DecidableEq

/-- Python string `"data: "`. -/
def dataColon : Str := "data: ".toList

/-- Python string `"[DONE]"`. -/
def doneTok : Str := "[DONE]".toList

/-- The `async for line in response.aiter_lines()` loop (agent.py lines
194-263): skip lines not starting with `"data: "`, break on `[DONE]`, skip
lines whose payload fails to parse (`except json.JSONDecodeError:
continue`), skip payloads with no choices or empty content, and feed every
remaining content string to the state machine. -/
def runLines (st : StreamState) : List Line → StreamState × List Event × List Stored
  | [] => (st, [], [])
  | l :: ls =>
    if dataColon.isPrefixOf l.raw then
      if strip (l.raw.drop 6) = doneTok then (st, [], [])
      else
        match l.parse with
        | none => runLines st ls
        | some cd =>
          match cd.choices with
          | [] => runLines st ls
          | ch :: _ =>
            if ch.content = [] then runLines st ls
            else
              let r1 := processContent st ch.content
              let r2 := runLines r1.1 ls
              (r2.1, r1.2.1 ++ r2.2.1, r1.2.2 ++ r2.2.2)
    else runLines st ls

/-- The content strings the line loop actually feeds to the state machine,
in order (stopping at the first `[DONE]` line). -/
def extractContents : List Line → List Str
  | [] => []
  | l :: ls =>
    if dataColon.isPrefixOf l.raw then
      if strip (l.raw.drop 6) = doneTok then []
      else
        match l.parse with
        | none => extractContents ls
        | some cd =>
          match cd.choices with
          | [] => extractContents ls
          | ch :: _ =>
            if ch.content = [] then extractContents ls
            else ch.content :: extractContents ls
    else extractContents ls

/-- An LLM fulfillment config (the fields read at lines 161-185). -/
structure LlmConfig where
  api_base : Str
  api_model : Str
  api_key : Str
deriving DecidableEq

/-- `llm.data`: the fulfillment dict, as an association list. -/
structure LlmData where
  llm_fulfillments : List (Str × LlmConfig)
deriving DecidableEq

/-- The `llm` extension object; `data` may be absent (falsy). -/
structure LlmExt where
  data : Option LlmData
deriving DecidableEq

/-- Python `dict.get` on an association list. -/
def lookupKey (k : Str) : List (Str × LlmConfig) → Option LlmConfig
  | [] => none
  | (k', v) :: rest => if k' = k then some v else lookupKey k rest

/-- A canvas edit request (agent.py lines 99-113). -/
structure CanvasEditRequest where
  artifactParts : List Part
  start_index : Nat
  end_index : Nat
deriving DecidableEq

/-- Lines 101-105: the first `TextPart` of the input message, default `""`. -/
def firstTextPart : List Part → Str
  | [] => []
  | Part.text s :: _ => s
  | Part.nontext :: rest => firstTextPart rest

/-- Lines 108-112: `parts[0]` if it is a `TextPart`, else `""`. -/
def firstPartText : List Part → Str
  | Part.text s :: _ => s
  | _ => []

/-- Python slicing `s[a:b]` for non-negative indices (with clamping). -/
def pySlice (s : Str) (a b : Nat) : Str := (s.take b).drop a

/-- Decimal rendering of a natural, for the trajectory text of line 133. -/
def natToStr (n : Nat) : Str := (Nat.repr n).toList

/-- The edit prompt of agent.py lines 115-129. -/
def editPromptText (selected original user_msg : Str) : Str :=
  "Edit this code:\n\nSELECTED:\n```\n".toList ++ selected
    ++ "\n```\n\nFULL CODE:\n```\n".toList ++ original
    ++ "\n```\n\nUSER REQUEST: ".toList ++ user_msg
    ++ "\n\nReturn ONLY the complete updated code in a code block (```language).".toList

/-- Lines 107-136: the canvas branch; returns the trajectory events it
yields and the prompt it builds. -/
def canvasStep (canvasReq : Option CanvasEditRequest) (user_msg : Str) :
    List Event × Str :=
  match canvasReq with
  | some req =>
    let original := firstPartText req.artifactParts
    let selected := pySlice original req.start_index req.end_index
    ([Event.trajectory "Canvas Edit".toList
        ("Editing ".toList ++ natToStr selected.length ++ " chars".toList)],
     editPromptText selected original user_msg)
  | none => ([], user_msg)

/-- The observable outcome of one invocation of `coding_agent`:
the events it yields, what it hands to `context.store`, and whether the
upstream HTTP streaming call was issued (line 188). -/
structure AgentRun where
  events : List Event
  stored : List Stored
  networkCalled : Bool
deriving DecidableEq

/-- One invocation of `coding_agent` (agent.py lines 95-268), with the
upstream transport abstracted as the list of SSE lines it would deliver.
The `except` clause of lines 270-275 is unreachable in this embedding since
no modelled step raises. -/
def runAgent (inputParts : List Part) (canvasReq : Option CanvasEditRequest)
    (llm : Option LlmExt) (lines : List Line) : AgentRun :=
  -- line 95: store the input; line 97: trajectory yield
  let stored0 := [Stored.input inputParts]
  let evs0 := [Event.trajectory "Initializing".toList "Starting coding agent".toList]
  let user_msg := firstTextPart inputParts
  let cv := canvasStep canvasReq user_msg
  -- lines 139-144: chained truthiness of llm / llm.data / llm_fulfillments
  let fulfillments : Option (List (Str × LlmConfig)) :=
    match llm with
    | none => none
    | some ext =>
      match ext.data with
      | none => none
      | some d => if d.llm_fulfillments = [] then none else some d.llm_fulfillments
  match fulfillments with
  | none =>
    let err := "LLM service not available".toList
    { events := evs0 ++ cv.1 ++ [Event.message err],
      stored := stored0 ++ [Stored.message err], networkCalled := false }
  | some fl =>
    -- lines 146-152
    match lookupKey "default".toList fl with
    | none =>
      let err := "LLM config not found".toList
      { events := evs0 ++ cv.1 ++ [Event.message err],
        stored := stored0 ++ [Stored.message err], networkCalled := false }
    | some cfg =>
      -- line 161, lines 182-263, lines 265-268
      let evs2 := [Event.trajectory "Processing".toList
                     ("Using ".toList ++ cfg.api_model)]
      let r := runLines initState lines
      { events := evs0 ++ cv.1 ++ evs2 ++ r.2.1
                    ++ [Event.trajectory "Complete".toList "Done".toList],
        stored := stored0 ++ r.2.2 ++ [Stored.message r.1.response_text],
        networkCalled := true }

/-! ## The buffered extractor, agent.py lines 28-43 -/

/-- `\w` of Python's `re` (ASCII cases): letters, digits, underscore. -/
def isWordChar (c : Char) : Bool := c.isAlphanum || c = '_'

/-- A `CodeBlock` dict produced by `extract_code_blocks`; `stop` embeds the
`"end"` key (a Lean keyword). -/
structure CodeBlock where
  language : Str
  code : Str
  start : Nat
  stop : Nat
deriving DecidableEq

/-- `splitOnce` found an occurrence: the string decomposes around it. -/
theorem splitOnce_decomp {pat s b a : Str} (h : splitOnce pat s = some (b, a)) :
    s = b ++ pat ++ a := by
  induction s generalizing b with
  | nil => simp [splitOnce] at h
  | cons c rest ih =>
    rw [splitOnce] at h
    by_cases hp : pat.isPrefixOf (c :: rest)
    · rw [if_pos hp] at h
      obtain ⟨hb, ha⟩ := Prod.mk.injEq .. ▸ Option.some.injEq .. ▸ h
      have hpre : pat <+: (c :: rest) := by
        exact List.isPrefixOf_iff_prefix.mp hp
      obtain ⟨t, ht⟩ := hpre
      subst hb
      rw [← ha, ← ht, List.nil_append, List.drop_left]
    · rw [if_neg hp] at h
      cases hrec : splitOnce pat rest with
      | none => rw [hrec] at h; simp at h
      | some p =>
        obtain ⟨b', a'⟩ := p
        rw [hrec] at h
        obtain ⟨hb, ha⟩ := Prod.mk.injEq .. ▸ Option.some.injEq .. ▸ h
        subst ha
        rw [← hb, List.cons_append, List.cons_append, ih hrec]

/-- Dropping as many elements as the `takeWhile` run is `dropWhile`. -/
theorem drop_len_takeWhile (p : Char → Bool) (l : List Char) :
    l.drop (l.takeWhile p).length = l.dropWhile p := by
  induction l with
  | nil => rfl
  | cons c rest ih =>
    cases hp : p c <;> simp [List.takeWhile_cons, List.dropWhile_cons, hp, ih]

/-- Every element kept by `takeWhile` satisfies the predicate. -/
theorem all_takeWhile (p : Char → Bool) (l : List Char) :
    (l.takeWhile p).all p = true := by
  induction l with
  | nil => rfl
  | cons c rest ih =>
    cases hp : p c <;> simp [List.takeWhile_cons, hp, ih]

/-- Attempt of the regex `r"```(\w+)?\n(.*?)```"` (with `re.DOTALL`) at the
start of `s`.  Returns the language group (`[]` encodes an absent group),
the raw group-2 text, the total match length, and the text after the match.
The greedy optional group `(\w+)?` must swallow the maximal word-character
run (shorter splits leave a word character where `\n` is required), and the
lazy `(.*?)` stops at the first following fence. -/
def matchFence (s : Str) : Option (Str × Str × Nat × Str) :=
  if fence.isPrefixOf s then
    match (s.drop 3).drop ((s.drop 3).takeWhile isWordChar).length with
    | c :: rest3 =>
      if c = nl then
        match splitOnce fence rest3 with
        | some (code, after) =>
          some ((s.drop 3).takeWhile isWordChar, code,
                3 + ((s.drop 3).takeWhile isWordChar).length + 1 + code.length + 3,
                after)
        | none => none
      else none
    | [] => none
  else none

/-- A successful `matchFence` decomposes the input into the matched fenced
block followed by the remainder. -/
theorem matchFence_decomp {s w code : Str} {len : Nat} {after : Str}
    (h : matchFence s = some (w, code, len, after)) :
    s = fence ++ (w ++ (nl :: (code ++ (fence ++ after))))
      ∧ len = 7 + w.length + code.length ∧ w.all isWordChar = true := by
  unfold matchFence at h
  split at h
  next hp =>
    split at h
    next c rest3 heq =>
      split at h
      next hc =>
        split at h
        next cd af hsp =>
          obtain ⟨hw, hcd, hlen, haf⟩ := by simpa using h
          have hpre : fence <+: s := List.isPrefixOf_iff_prefix.mp hp
          obtain ⟨t, ht⟩ := hpre
          have hdrop : s.drop 3 = t := by
            rw [← ht]
            have h3 : fence.length = 3 := rfl
            rw [← h3, List.drop_left]
          rw [hdrop] at heq hw
          have htw : t = t.takeWhile isWordChar ++ (c :: rest3) := by
            conv_lhs => rw [← List.takeWhile_append_dropWhile isWordChar t]
            rw [← drop_len_takeWhile isWordChar t, heq]
          have hrest3 : rest3 = cd ++ fence ++ af := splitOnce_decomp hsp
          refine ⟨?_, ?_, ?_⟩
          · rw [← ht, htw, hrest3, ← hw, ← hcd, ← haf, hc]
            simp
          · rw [← hlen, ← hw, ← hcd]
            simp [hdrop]
            omega
          · rw [← hw]
            exact all_takeWhile isWordChar t
        next => simp at h
      next => simp at h
    next => simp at h
  next => simp at h

/-- A successful `matchFence` strictly shrinks the string (used for the
termination of `findBlocks`). -/
theorem matchFence_lt {s w code : Str} {len : Nat} {after : Str}
    (h : matchFence s = some (w, code, len, after)) :
    after.length < s.length := by
  obtain ⟨hs, -, -⟩ := matchFence_decomp h
  rw [hs]
  simp [fence]
  omega

/-- `re.finditer` over the pattern: scan left to right, emit each
non-overlapping match, continue after its end.  `pos` tracks the offset of
the current suffix inside the full text (for `match.start()` /
`match.end()`). -/
def findBlocks (s : Str) (pos : Nat) : List CodeBlock :=
  match s with
  | [] => []
  | c :: rest =>
    match h : matchFence (c :: rest) with
    | some (w, code, len, after) =>
      { language := if w = [] then "text".toList else w, code := strip code,
        start := pos, stop := pos + len } :: findBlocks after (pos + len)
    | none => findBlocks rest (pos + 1)
termination_by s.length
decreasing_by
  · exact matchFence_lt h
  · simp

/-- `extract_code_blocks` (agent.py lines 28-43). -/
def extract_code_blocks (text : Str) : List CodeBlock := findBlocks text 0

/-! ## Block selection / naming, modelled from the spec -/

/-- Modelled from the spec: the repository's buffered-path name derivation
(spec section 4.4) has no implementation under src/ (`extract_code_blocks`
has no caller there).  A line is a candidate when, after stripping, it is a
single-line comment with prefix `#` or `//`; the captured remainder is the
stripped text after the comment prefix. -/
def comment_candidate (line : Str) : Option Str :=
  let t := strip line
  if "#".toList.isPrefixOf t then some (strip (t.drop 1))
  else if "//".toList.isPrefixOf t then some (strip (t.drop 2))
  else none

/-- Modelled from the spec: a candidate is accepted when its (stripped)
length is under 50 characters and its lowercase form does not start with
`"copyright"`. -/
def qualifies (cand : Str) : Bool :=
  cand.length < 50 && !("copyright".toList.isPrefixOf (lower cand))

/-- Accumulating scanner behind `splitLines`; `acc` holds the current line
reversed. -/
def splitLinesGo : Str → Str → List Str
  | acc, [] => [acc.reverse]
  | acc, c :: rest =>
    if c = nl then acc.reverse :: splitLinesGo [] rest
    else splitLinesGo (c :: acc) rest

/-- Python `s.split("\n")`. -/
def splitLines (s : Str) : List Str := splitLinesGo [] s

/-- Modelled from the spec: first qualifying comment candidate of a list of
lines. -/
def firstQualifying : List Str → Option Str
  | [] => none
  | l :: rest =>
    match comment_candidate l with
    | some cand => if qualifies cand then some cand else firstQualifying rest
    | none => firstQualifying rest

/-- Modelled from the spec: inspect up to the first 3 lines of the chosen
block's code for a short non-copyright comment; otherwise fall back to
`"<Language title-cased> Code"` (spec section 4.4). -/
def derive_name (language code : Str) : Str :=
  match firstQualifying ((splitLines code).take 3) with
  | some n => n
  | none => artifactName language

/-- Modelled from the spec: choose the block with maximum `code` length,
ties broken by first occurrence (spec section 4.4). -/
def pick_block : List CodeBlock → Option CodeBlock
  | [] => none
  | b :: rest =>
    some (rest.foldl (fun best x =>
      if best.code.length < x.code.length then x else best) b)

/-- Modelled from the spec: `BlockSelector` — the primary block together
with its derived display name (spec section 4.4). -/
def select_block (blocks : List CodeBlock) : Option (CodeBlock × Str) :=
  match pick_block blocks with
  | none => none
  | some b => some (b, derive_name b.language b.code)

/-! ## Helper observers used in claim statements -/

/-- The text payload carried by a parser-level event (empty for message and
trajectory events, which carry no streamed content). -/
def eventContent : Event → Str
  | Event.text s => s
  | Event.create _ _ c => c
  | Event.update _ _ c => c
  | Event.final _ _ c => c
  | Event.message _ => []
  | Event.trajectory _ _ => []

/-- Recognizer for text-fragment events. -/
def isTextEvent : Event → Bool
  | Event.text _ => true
  | _ => false

/-- Recognizer for artifact-creation events. -/
def isCreateEvent : Event → Bool
  | Event.create _ _ _ => true
  | _ => false

/-- Recognizer for closing (block-finalizing) artifact events. -/
def isFinalEvent : Event → Bool
  | Event.final _ _ _ => true
  | _ => false

/-- Recognizer for `AgentMessage` events. -/
def isMessageEvent : Event → Bool
  | Event.message _ => true
  | _ => false

/-- Folds a trace of events to the content of the currently open block as it
was delivered to the event sink: a create starts it with the created
content, updates append their payload, a close discards it. -/
def openEmitted : Option Str → List Event → Option Str
  | cur, [] => cur
  | _, Event.create _ _ c :: rest => openEmitted (some c) rest
  | cur, Event.update _ _ c :: rest => openEmitted (cur.map (· ++ c)) rest
  | _, Event.final _ _ _ :: rest => openEmitted none rest
  | cur, Event.text _ :: rest => openEmitted cur rest
  | cur, Event.message _ :: rest => openEmitted cur rest
  | cur, Event.trajectory _ _ :: rest => openEmitted cur rest

/-- The full content of the currently open block according to the parser
state: the re-rendered fence header plus the code buffer. -/
def openOf (st : StreamState) : Option Str :=
  if st.in_code_block then some (fence ++ st.language ++ nl :: st.code_buffer)
  else none

/-- Trace checker for the artifact lifecycle: `cur` is the identifier of the
currently open block (`none` when no block is open) and `next` the next
fresh identifier.  It accepts a trace iff a create appears only while no
block is open and carries the fresh identifier, every update or close
carries exactly the open block's identifier, and a close ends the block —
so blocks never overlap or interleave and every identifier is created
exactly once, before all its updates. -/
def checkTrace : Option Nat → Nat → List Event → Bool
  | _, _, [] => true
  | cur, next, Event.create id _ _ :: rest =>
    match cur with
    | none => id == next && checkTrace (some id) (next + 1) rest
    | some _ => false
  | cur, next, Event.update oid _ _ :: rest =>
    match cur with
    | some k => oid == some k && checkTrace cur next rest
    | none => false
  | cur, next, Event.final oid _ _ :: rest =>
    match cur with
    | some k => oid == some k && checkTrace none next rest
    | none => false
  | cur, next, _ :: rest => checkTrace cur next rest

/-- The store call sites of the streaming loop, as a function of the emitted
event: only the creation of a block's artifact is stored (line 234);
incremental and closing artifacts are yielded only. -/
def storedOfEvent : Event → Option Stored
  | Event.create id n c => some (Stored.artifact id n c)
  | _ => none

/-- No backtick occurs in the string. -/
def BtFree (s : Str) : Prop := ∀ c ∈ s, ¬ c = backtick

instance : DecidablePred BtFree := fun s => List.decidableBAll _ s

/-! ## Infrastructure lemmas -/

/-- `runChunks` distributes over list append. -/
theorem runChunks_append (st : StreamState) (a b : List Str) :
    runChunks st (a ++ b) =
      ((runChunks (runChunks st a).1 b).1,
       (runChunks st a).2.1 ++ (runChunks (runChunks st a).1 b).2.1,
       (runChunks st a).2.2 ++ (runChunks (runChunks st a).1 b).2.2) := by
  induction a generalizing st with
  | nil => simp [runChunks]
  | cons c cs ih => simp [runChunks, ih, List.append_assoc]

/-- A run of marker-free chunks while outside a block: each is relayed as a
text event and only `response_text` grows. -/
theorem runChunks_text_run (cs : List Str) (st : StreamState)
    (hout : st.in_code_block = false)
    (hnf : ∀ c ∈ cs, splitOnce fence c = none) :
    runChunks st cs =
      ({ st with response_text := st.response_text ++ cs.flatten },
       cs.map Event.text, []) := by
  induction cs generalizing st with
  | nil => simp [runChunks]
  | cons c cs ih =>
    have hc := hnf c (by simp)
    have hrest : ∀ x ∈ cs, splitOnce fence x = none := fun x hx => hnf x (by simp [hx])
    simp only [runChunks, processContent, hout, Bool.false_eq_true, if_false, hc]
    rw [ih _ rfl hrest]
    simp [List.append_assoc]

/-- A run of marker-free chunks while inside a block: each is emitted as an
incremental update and appended to the code buffer. -/
theorem runChunks_update_run (cs : List Str) (st : StreamState)
    (hin : st.in_code_block = true)
    (hnf : ∀ c ∈ cs, splitOnce fence c = none) :
    runChunks st cs =
      ({ st with response_text := st.response_text ++ cs.flatten,
                 code_buffer := st.code_buffer ++ cs.flatten },
       cs.map (Event.update st.artifact_id (artifactName st.language)), []) := by
  induction cs generalizing st with
  | nil => simp [runChunks]
  | cons c cs ih =>
    have hc := hnf c (by simp)
    have hrest : ∀ x ∈ cs, splitOnce fence x = none := fun x hx => hnf x (by simp [hx])
    simp only [runChunks, processContent, hin, if_true, hc]
    rw [ih _ rfl hrest]
    simp [List.append_assoc]

/-- The line loop is the chunk loop applied to the contents it extracts. -/
theorem runLines_eq_runChunks (lines : List Line) (st : StreamState) :
    runLines st lines = runChunks st (extractContents lines) := by
  induction lines generalizing st with
  | nil => simp [runLines, extractContents, runChunks]
  | cons l ls ih =>
    rw [runLines, extractContents]
    by_cases h1 : dataColon.isPrefixOf l.raw
    · rw [if_pos h1, if_pos h1]
      by_cases h2 : strip (l.raw.drop 6) = doneTok
      · rw [if_pos h2, if_pos h2]; simp [runChunks]
      · rw [if_neg h2, if_neg h2]
        cases hp : l.parse with
        | none => exact ih st
        | some cd =>
          dsimp only
          cases hc : cd.choices with
          | nil => exact ih st
          | cons ch tl =>
            dsimp only
            by_cases h3 : ch.content = []
            · rw [if_pos h3, if_pos h3]; exact ih st
            · rw [if_neg h3, if_neg h3, runChunks]
              rw [ih]
    · rw [if_neg h1, if_neg h1]; exact ih st

/-! ## C7: the three-chunk scenario -/

/-- C7 counterexample: for the input streamed as `"Here:\n```py"`,
`"thon\nprint(1)\n```"`, `"\nDone."`, the claim predicts a
`TextFragment("Here:\n")` followed by a block opened with language
`"text"`.  In fact no text event is emitted before the block (the only text
event of the whole run is `"\nDone."`) and the detected language is `"py"`:
the marker is wholly inside chunk 1, so the split-marker weakness does not
apply and the partial token `"py"` becomes the language. -/
theorem c7_counterexample :
    (runChunks initState
        ["Here:\n```py".toList, "thon\nprint(1)\n```".toList, "\nDone.".toList]).2.1.filter
        isTextEvent = [Event.text "\nDone.".toList]
    ∧ (runChunks initState
        ["Here:\n```py".toList, "thon\nprint(1)\n```".toList, "\nDone.".toList]).1.language
        = "py".toList := by
  decide

/-- C7 (amended): on the three chunks the live path emits no text fragment
for `"Here:\n"` (it is accumulated into the unused `pre_code_text`), opens
the block with language `"py"` (the partial token at the end of chunk 1),
closes it on chunk 2 with `"thon\nprint(1)\n"` prepended to the code, and
relays `"\nDone."` as plain text. -/
theorem c7_scenario_events :
    (runChunks initState
        ["Here:\n```py".toList, "thon\nprint(1)\n```".toList, "\nDone.".toList]).2.1
      = [Event.create 0 "Py Code".toList "```py\n".toList,
         Event.final (some 0) "Py Code".toList "thon\nprint(1)\n".toList,
         Event.text "\nDone.".toList] := by
  decide

/-! ## C3: closing a block inside a chunk -/

/-- C3 counterexample: while inside a block, a chunk holding the closing
marker followed by `"\nTrailing text"` produces only the closing update for
the text before the marker; the remainder after the marker is dropped, not
reprocessed, so no event at all carries the trailing text. -/
theorem c3_counterexample :
    (runChunks initState ["```\nA".toList, "B```\nTrailing text".toList]).2.1
      = [Event.create 0 "Text Code".toList "```text\nA".toList,
         Event.final (some 0) "Text Code".toList "B".toList] := by
  decide

/-- C3 (amended): when the parser is inside a block and the chunk contains
the fence marker, it splits at the first occurrence, appends the before-text
to the buffer, emits one closing artifact event carrying that before-text,
and transitions to outside; the remainder after the marker is discarded
(it survives only in `response_text`) — the result does not depend on it. -/
theorem c3_close_drops_remainder (st : StreamState) (chunk cb ca : Str)
    (hin : st.in_code_block = true)
    (hsplit : splitOnce fence chunk = some (cb, ca)) :
    processContent st chunk =
      ({ st with response_text := st.response_text ++ chunk,
                 code_buffer := st.code_buffer ++ cb,
                 in_code_block := false },
       [Event.final st.artifact_id (artifactName st.language) cb], []) := by
  simp [processContent, hin, hsplit]

/-- Witness for `c3_close_drops_remainder` at a concrete inside-block state
and chunk. -/
theorem c3_close_drops_remainder_witness :
    ((⟨"r".toList, true, "B".toList, "py".toList, some 5, [], 6⟩ :
        StreamState).in_code_block = true)
    ∧ splitOnce fence "end```\nTrail".toList
        = some ("end".toList, "\nTrail".toList)
    ∧ processContent
        (⟨"r".toList, true, "B".toList, "py".toList, some 5, [], 6⟩ : StreamState)
        "end```\nTrail".toList =
      ({ (⟨"r".toList, true, "B".toList, "py".toList, some 5, [], 6⟩ : StreamState) with
           response_text := "r".toList ++ "end```\nTrail".toList,
           code_buffer := "B".toList ++ "end".toList,
           in_code_block := false },
       [Event.final (some 5) (artifactName "py".toList) "end".toList], []) :=
  ⟨rfl, by decide,
   c3_close_drops_remainder
     (⟨"r".toList, true, "B".toList, "py".toList, some 5, [], 6⟩ : StreamState)
     "end```\nTrail".toList "end".toList "\nTrail".toList rfl (by decide)⟩

/-! ## C2: end of stream while inside a block -/

/-- C2 counterexample: a stream that ends while inside a code block.  The
claim predicts an end-of-stream flush emitting a closing event with the
buffered content; in fact the loop simply ends: the final state is still
inside the block and no closing event was emitted. -/
theorem c2_counterexample :
    ((runLines initState
        [{ raw := "data: x".toList,
           parse := some { choices := [{ content := "```py\nhello".toList }] } }]).1.in_code_block
        = true)
    ∧ (runLines initState
        [{ raw := "data: x".toList,
           parse := some { choices := [{ content := "```py\nhello".toList }] } }]).2.1.filter
        isFinalEvent = [] := by
  decide

/-- `openEmitted` folds through list append. -/
theorem openEmitted_append (a b : List Event) (cur : Option Str) :
    openEmitted cur (a ++ b) = openEmitted (openEmitted cur a) b := by
  induction a generalizing cur with
  | nil => rfl
  | cons e a ih => cases e <;> simp [openEmitted, ih]

/-- One chunk keeps the emitted open-block content in lock-step with the
parser's buffer. -/
theorem processContent_openOf (st : StreamState) (c : Str) :
    openEmitted (openOf st) (processContent st c).2.1
      = openOf (processContent st c).1 := by
  cases hin : st.in_code_block with
  | true =>
    cases hsp : splitOnce fence c with
    | some p =>
      obtain ⟨cb, ca⟩ := p
      simp [processContent, hin, hsp, openEmitted, openOf]
    | none =>
      simp [processContent, hin, hsp, openEmitted, openOf, List.append_assoc]
  | false =>
    cases hsp : splitOnce fence c with
    | some p =>
      obtain ⟨before, after⟩ := p
      simp [processContent, hin, hsp, openEmitted, openOf]
    | none =>
      simp [processContent, hin, hsp, openEmitted, openOf]

/-- Stepping the chunk loop keeps the emitted-so-far open-block content in
lock-step with the parser's buffer. -/
theorem openEmitted_runChunks (cs : List Str) (st : StreamState) :
    openEmitted (openOf st) (runChunks st cs).2.1 = openOf (runChunks st cs).1 := by
  induction cs generalizing st with
  | nil => simp [runChunks, openEmitted]
  | cons c cs ih =>
    rw [runChunks]
    dsimp only
    rw [openEmitted_append, processContent_openOf]
    exact ih _

/-- C2 (amended): there is no end-of-stream flush — when the upstream stream
ends while the parser is inside a block, no closing event is emitted (see
the counterexample) — but no buffered content is ever lost to truncation:
at end of stream the open-block content already delivered through the
create/update events equals the fence header plus the entire code buffer of
the final state. -/
theorem c2_no_flush_no_loss (lines : List Line) :
    openEmitted none (runLines initState lines).2.1
      = openOf (runLines initState lines).1 := by
  rw [runLines_eq_runChunks]
  have h := openEmitted_runChunks (extractContents lines) initState
  rw [openOf] at h
  simpa [initState] using h

/-! ## C4: artifact lifecycle ordering -/

/-- The chunk loop only emits lifecycle-well-formed traces, starting from
any state whose open block (if any) has an assigned identifier. -/
theorem checkTrace_runChunks (cs : List Str) (st : StreamState)
    (hinv : st.in_code_block = true → st.artifact_id.isSome = true) :
    checkTrace (if st.in_code_block then st.artifact_id else none) st.next_id
      (runChunks st cs).2.1 = true := by
  induction cs generalizing st with
  | nil => simp [runChunks, checkTrace]
  | cons c cs ih =>
    rw [runChunks]
    dsimp only
    cases hin : st.in_code_block with
    | true =>
      obtain ⟨k, hk⟩ := Option.isSome_iff_exists.mp (hinv hin)
      cases hsp : splitOnce fence c with
      | some p =>
        obtain ⟨cb, ca⟩ := p
        simp only [processContent, hin, if_true, hsp, hk, List.singleton_append]
        have := ih { st with response_text := st.response_text ++ c,
                             code_buffer := st.code_buffer ++ cb,
                             in_code_block := false, artifact_id := some k }
          (by intro h; simp at h)
        simp only [checkTrace]
        simpa using this
      | none =>
        simp only [processContent, hin, if_true, hsp, hk, List.singleton_append]
        have := ih { st with response_text := st.response_text ++ c,
                             code_buffer := st.code_buffer ++ c,
                             artifact_id := some k }
          (by intro _; simp)
        simp only [checkTrace]
        simpa [hin, hk] using this
    | false =>
      cases hsp : splitOnce fence c with
      | some p =>
        obtain ⟨before, after⟩ := p
        simp only [processContent, hin, Bool.false_eq_true, if_false, hsp,
          List.singleton_append]
        have := ih { st with
          response_text := st.response_text ++ c,
          pre_code_text := st.pre_code_text ++ before,
          language := (parseOpen after).1, code_buffer := (parseOpen after).2,
          in_code_block := true, artifact_id := some st.next_id,
          next_id := st.next_id + 1 }
          (by intro _; simp)
        simp only [checkTrace]
        simpa using this
      | none =>
        simp only [processContent, hin, Bool.false_eq_true, if_false, hsp,
          List.singleton_append]
        have := ih { st with response_text := st.response_text ++ c }
          (by intro h; simp [hin] at h)
        simp only [checkTrace]
        simpa [hin] using this

/-- C4: at most one code block is open at any point of the streaming path,
every block's identifier is created exactly once (identifiers are handed
out fresh, in order), all updates and the close of a block carry exactly
that block's identifier after its create, and operations of different
blocks never interleave — the full event trace passes `checkTrace`. -/
theorem c4_artifact_lifecycle (lines : List Line) :
    checkTrace none 0 (runLines initState lines).2.1 = true := by
  rw [runLines_eq_runChunks]
  have h := checkTrace_runChunks (extractContents lines) initState
    (by intro h; simp [initState] at h)
  simpa [initState] using h

/-! ## C9: malformed JSON lines are skipped -/

/-- C9: a `data: ` line whose payload fails JSON parsing (and is not the
`[DONE]` sentinel) is skipped entirely: the run over the stream with the
malformed line inserted is identical — same final state, same events, same
stores — to the run without it, so nothing is emitted for the bad line and
the rest of the response is not lost. -/
theorem c9_malformed_line_skipped (st : StreamState) (pre post : List Line)
    (raw : Str) (hdata : dataColon.isPrefixOf raw = true)
    (hnotdone : ¬ strip (raw.drop 6) = doneTok) :
    runLines st (pre ++ { raw := raw, parse := none } :: post)
      = runLines st (pre ++ post) := by
  induction pre generalizing st with
  | nil =>
    rw [List.nil_append, List.nil_append, runLines]
    rw [if_pos hdata, if_neg hnotdone]
  | cons l ls ih =>
    rw [List.cons_append, List.cons_append, runLines]
    conv_rhs => rw [runLines]
    by_cases h1 : dataColon.isPrefixOf l.raw
    · rw [if_pos h1, if_pos h1]
      by_cases h2 : strip (l.raw.drop 6) = doneTok
      · rw [if_pos h2, if_pos h2]
      · rw [if_neg h2, if_neg h2]
        cases hp : l.parse with
        | none => exact ih st
        | some cd =>
          dsimp only
          cases hc : cd.choices with
          | nil => exact ih st
          | cons ch tl =>
            dsimp only
            by_cases h3 : ch.content = []
            · rw [if_pos h3, if_pos h3]; exact ih st
            · rw [if_neg h3, if_neg h3]
              rw [ih]
    · rw [if_neg h1, if_neg h1]; exact ih st

/-- Witness for `c9_malformed_line_skipped` at a concrete stream: a good
line, the malformed line, and another good line. -/
theorem c9_malformed_line_skipped_witness :
    dataColon.isPrefixOf "data: oops".toList = true
    ∧ ¬ strip ("data: oops".toList.drop 6) = doneTok
    ∧ runLines initState
        ([{ raw := "data: a".toList,
            parse := some { choices := [{ content := "hi ".toList }] } }]
          ++ { raw := "data: oops".toList, parse := none }
            :: [{ raw := "data: b".toList,
                  parse := some { choices := [{ content := "there".toList }] } }])
      = runLines initState
          ([{ raw := "data: a".toList,
              parse := some { choices := [{ content := "hi ".toList }] } }]
            ++ [{ raw := "data: b".toList,
                  parse := some { choices := [{ content := "there".toList }] } }]) :=
  ⟨by decide, by decide,
   c9_malformed_line_skipped initState
     [{ raw := "data: a".toList,
        parse := some { choices := [{ content := "hi ".toList }] } }]
     [{ raw := "data: b".toList,
        parse := some { choices := [{ content := "there".toList }] } }]
     "data: oops".toList (by decide) (by decide)⟩

/-! ## C10: only block-opening artifacts are stored -/

/-- Along the chunk loop, what is stored is exactly the create events. -/
theorem stored_eq_filterMap_runChunks (cs : List Str) (st : StreamState) :
    (runChunks st cs).2.2 = (runChunks st cs).2.1.filterMap storedOfEvent := by
  induction cs generalizing st with
  | nil => simp [runChunks]
  | cons c cs ih =>
    rw [runChunks]
    dsimp only
    rw [List.filterMap_append, ← ih]
    congr 1
    cases hin : st.in_code_block with
    | true =>
      cases hsp : splitOnce fence c with
      | some p =>
        obtain ⟨cb, ca⟩ := p
        simp [processContent, hin, hsp, storedOfEvent]
      | none => simp [processContent, hin, hsp, storedOfEvent]
    | false =>
      cases hsp : splitOnce fence c with
      | some p =>
        obtain ⟨before, after⟩ := p
        simp [processContent, hin, hsp, storedOfEvent]
      | none => simp [processContent, hin, hsp, storedOfEvent]

/-- C10: in the streaming path, the context store receives exactly the
input message, then one artifact per block — the block-opening artifact,
carrying only the fence header and the first code slice — and finally the
full response text as a message; update and closing artifacts are yielded
to the event sink but never stored. -/
theorem c10_only_creates_stored (inputParts : List Part)
    (canvasReq : Option CanvasEditRequest) (fl : List (Str × LlmConfig))
    (cfg : LlmConfig) (lines : List Line)
    (hne : ¬ fl = [])
    (hdef : lookupKey "default".toList fl = some cfg) :
    (runAgent inputParts canvasReq (some ⟨some ⟨fl⟩⟩) lines).stored
      = Stored.input inputParts
          :: ((runAgent inputParts canvasReq (some ⟨some ⟨fl⟩⟩) lines).events.filterMap
                storedOfEvent
              ++ [Stored.message (runLines initState lines).1.response_text]) := by
  have hstream : (runLines initState lines).2.2
      = (runLines initState lines).2.1.filterMap storedOfEvent := by
    rw [runLines_eq_runChunks]
    exact stored_eq_filterMap_runChunks (extractContents lines) initState
  have hdef2 : lookupKey (['d', 'e', 'f', 'a', 'u', 'l', 't'] : Str) fl = some cfg := hdef
  cases canvasReq with
  | none => simp [runAgent, canvasStep, storedOfEvent, hne, hdef2, hstream]
  | some req => simp [runAgent, canvasStep, storedOfEvent, hne, hdef2, hstream]

/-- Witness for `c10_only_creates_stored` on a concrete stream containing
one block opening, one update and one close. -/
theorem c10_only_creates_stored_witness :
    (¬ ([("default".toList, (⟨[], [], []⟩ : LlmConfig))] :
          List (Str × LlmConfig)) = [])
    ∧ lookupKey "default".toList [("default".toList, (⟨[], [], []⟩ : LlmConfig))]
        = some (⟨[], [], []⟩ : LlmConfig)
    ∧ (runAgent [Part.text "write code".toList] none
          (some ⟨some ⟨[("default".toList, (⟨[], [], []⟩ : LlmConfig))]⟩⟩)
          [{ raw := "data: 1".toList,
             parse := some { choices := [{ content := "a```py\nx".toList }] } },
           { raw := "data: 2".toList,
             parse := some { choices := [{ content := "y".toList }] } },
           { raw := "data: 3".toList,
             parse := some { choices := [{ content := "z```done".toList }] } }]).stored
      = Stored.input [Part.text "write code".toList]
          :: ((runAgent [Part.text "write code".toList] none
                (some ⟨some ⟨[("default".toList, (⟨[], [], []⟩ : LlmConfig))]⟩⟩)
                [{ raw := "data: 1".toList,
                   parse := some { choices := [{ content := "a```py\nx".toList }] } },
                 { raw := "data: 2".toList,
                   parse := some { choices := [{ content := "y".toList }] } },
                 { raw := "data: 3".toList,
                   parse := some { choices := [{ content := "z```done".toList }] } }]).events.filterMap
                  storedOfEvent
              ++ [Stored.message (runLines initState
                    [{ raw := "data: 1".toList,
                       parse := some { choices := [{ content := "a```py\nx".toList }] } },
                     { raw := "data: 2".toList,
                       parse := some { choices := [{ content := "y".toList }] } },
                     { raw := "data: 3".toList,
                       parse := some { choices := [{ content := "z```done".toList }] } }]).1.response_text]) :=
  ⟨by decide, by decide,
   c10_only_creates_stored [Part.text "write code".toList] none
     [("default".toList, (⟨[], [], []⟩ : LlmConfig))] (⟨[], [], []⟩ : LlmConfig)
     [{ raw := "data: 1".toList,
        parse := some { choices := [{ content := "a```py\nx".toList }] } },
      { raw := "data: 2".toList,
        parse := some { choices := [{ content := "y".toList }] } },
      { raw := "data: 3".toList,
        parse := some { choices := [{ content := "z```done".toList }] } }]
     (by decide) (by decide)⟩

/-! ## C8: missing default fulfillment short-circuits -/

/-- C8: when the LLM extension is resolved (non-empty fulfillments) but has
no `"default"` entry, the invocation short-circuits: no network call is
issued, the run yields its trajectory events followed by the single
terminal error message `"LLM config not found"` (the only message event of
the run), and that error text is stored as the final message. -/
theorem c8_no_default_short_circuit (inputParts : List Part)
    (canvasReq : Option CanvasEditRequest) (fl : List (Str × LlmConfig))
    (lines : List Line) (hne : ¬ fl = [])
    (hdef : lookupKey "default".toList fl = none) :
    runAgent inputParts canvasReq (some ⟨some ⟨fl⟩⟩) lines =
      { events := Event.trajectory "Initializing".toList "Starting coding agent".toList
            :: ((canvasStep canvasReq (firstTextPart inputParts)).1
              ++ [Event.message "LLM config not found".toList]),
        stored := [Stored.input inputParts,
                   Stored.message "LLM config not found".toList],
        networkCalled := false }
    ∧ (runAgent inputParts canvasReq (some ⟨some ⟨fl⟩⟩) lines).events.filter
        isMessageEvent = [Event.message "LLM config not found".toList] := by
  have hdef2 : lookupKey (['d', 'e', 'f', 'a', 'u', 'l', 't'] : Str) fl = none := hdef
  constructor
  · cases canvasReq with
    | none => simp [runAgent, canvasStep, hne, hdef2]
    | some req => simp [runAgent, canvasStep, hne, hdef2]
  · cases canvasReq with
    | none => simp [runAgent, canvasStep, hne, hdef2, isMessageEvent]
    | some req => simp [runAgent, canvasStep, hne, hdef2, isMessageEvent]

/-- Witness for `c8_no_default_short_circuit` with a concrete fulfillment
dict lacking the `"default"` key. -/
theorem c8_no_default_short_circuit_witness :
    (¬ ([("other".toList, (⟨[], [], []⟩ : LlmConfig))] :
          List (Str × LlmConfig)) = [])
    ∧ lookupKey "default".toList [("other".toList, (⟨[], [], []⟩ : LlmConfig))] = none
    ∧ (runAgent [Part.text "hi".toList] none
          (some ⟨some ⟨[("other".toList, (⟨[], [], []⟩ : LlmConfig))]⟩⟩) [] =
        { events := Event.trajectory "Initializing".toList "Starting coding agent".toList
              :: ((canvasStep none (firstTextPart [Part.text "hi".toList])).1
                ++ [Event.message "LLM config not found".toList]),
          stored := [Stored.input [Part.text "hi".toList],
                     Stored.message "LLM config not found".toList],
          networkCalled := false }
      ∧ (runAgent [Part.text "hi".toList] none
            (some ⟨some ⟨[("other".toList, (⟨[], [], []⟩ : LlmConfig))]⟩⟩) []).events.filter
          isMessageEvent = [Event.message "LLM config not found".toList]) :=
  ⟨by decide, by decide,
   c8_no_default_short_circuit [Part.text "hi".toList] none
     [("other".toList, (⟨[], [], []⟩ : LlmConfig))] [] (by decide) (by decide)⟩

/-! ## C5: the buffered extractor -/

/-- A list is a prefix (as `isPrefixOf`) of itself followed by anything. -/
theorem isPrefixOf_append_self (l t : List Char) : l.isPrefixOf (l ++ t) = true :=
  List.isPrefixOf_iff_prefix.mpr ⟨t, rfl⟩

/-- The fence marker is not a prefix of a string starting with a
non-backtick character. -/
theorem fence_isPrefixOf_cons (c : Char) (l : Str) (hc : ¬ c = backtick) :
    fence.isPrefixOf (c :: l) = false := by
  cases hb : fence.isPrefixOf (c :: l) with
  | false => rfl
  | true =>
    exfalso
    obtain ⟨t, ht⟩ := List.isPrefixOf_iff_prefix.mp hb
    have hhead : backtick = c := by
      have h2 := congrArg List.head? ht
      simpa [fence] using h2
    exact hc hhead.symm

/-- Splitting at the fence finds the marker right after a backtick-free
stretch. -/
theorem splitOnce_fence_append (body post : Str) (hb : BtFree body) :
    splitOnce fence (body ++ fence ++ post) = some (body, post) := by
  induction body with
  | nil =>
    show splitOnce fence (backtick :: ([backtick, backtick] ++ post)) = _
    rw [splitOnce]
    have hp : List.isPrefixOf fence (backtick :: ([backtick, backtick] ++ post)) = true :=
      isPrefixOf_append_self fence post
    rw [if_pos hp]
    rfl
  | cons c body ih =>
    have hc : ¬ c = backtick := hb c (by simp)
    have hb2 : BtFree body := fun x hx => hb x (by simp [hx])
    show splitOnce fence (c :: (body ++ fence ++ post)) = _
    rw [splitOnce]
    rw [if_neg (by simp [fence_isPrefixOf_cons c _ hc])]
    rw [ih hb2]

/-- A backtick-free string contains no fence marker. -/
theorem splitOnce_btfree (s : Str) (hs : BtFree s) : splitOnce fence s = none := by
  induction s with
  | nil => rfl
  | cons c rest ih =>
    have hc : ¬ c = backtick := hs c (by simp)
    have hs2 : BtFree rest := fun x hx => hs x (by simp [hx])
    rw [splitOnce, if_neg (by simp [fence_isPrefixOf_cons c _ hc]), ih hs2]

/-- Inversion of a failed marker search. -/
theorem splitOnce_none_inv (pat : Str) (c : Char) (rest : Str)
    (h : splitOnce pat (c :: rest) = none) :
    pat.isPrefixOf (c :: rest) = false ∧ splitOnce pat rest = none := by
  rw [splitOnce] at h
  by_cases hp : pat.isPrefixOf (c :: rest)
  · rw [if_pos hp] at h; simp at h
  · rw [if_neg hp] at h
    refine ⟨by simp only [Bool.not_eq_true] at hp; exact hp, ?_⟩
    cases hrec : splitOnce pat rest with
    | none => rfl
    | some p => obtain ⟨b, a⟩ := p; rw [hrec] at h; simp at h

/-- `matchFence` fails where the fence marker is not a prefix. -/
theorem matchFence_no_marker (c : Char) (rest : Str)
    (hp : fence.isPrefixOf (c :: rest) = false) :
    matchFence (c :: rest) = none := by
  unfold matchFence
  rw [if_neg (by simp [hp])]

/-- `findBlocks` on the empty string. -/
theorem findBlocks_nil (pos : Nat) : findBlocks [] pos = [] := by
  rw [findBlocks]

/-- `findBlocks` steps one character past a failed match attempt. -/
theorem findBlocks_cons_none (c : Char) (rest : Str) (pos : Nat)
    (h : matchFence (c :: rest) = none) :
    findBlocks (c :: rest) pos = findBlocks rest (pos + 1) := by
  rw [findBlocks]
  split
  next w code len after heq => rw [h] at heq; exact absurd heq (by simp)
  next => rfl

/-- `findBlocks` emits a block at a successful match and continues after
it. -/
theorem findBlocks_cons_some (c : Char) (rest : Str) (pos : Nat)
    (w code : Str) (len : Nat) (after : Str)
    (h : matchFence (c :: rest) = some (w, code, len, after)) :
    findBlocks (c :: rest) pos =
      { language := if w = [] then "text".toList else w, code := strip code,
        start := pos, stop := pos + len } :: findBlocks after (pos + len) := by
  rw [findBlocks]
  split
  next w2 code2 len2 after2 heq =>
    rw [h] at heq
    obtain ⟨hw, hcd, hlen, haf⟩ := by simpa using heq
    rw [hw, hcd, hlen, haf]
  next heq => rw [h] at heq; exact absurd heq (by simp)

/-- A non-backtick head never starts a match. -/
theorem matchFence_cons_nonbt (c : Char) (l : Str) (hc : ¬ c = backtick) :
    matchFence (c :: l) = none :=
  matchFence_no_marker c l (fence_isPrefixOf_cons c l hc)

/-- A backtick-free string yields no blocks. -/
theorem findBlocks_btfree (s : Str) (pos : Nat) (hs : BtFree s) :
    findBlocks s pos = [] := by
  induction s generalizing pos with
  | nil => exact findBlocks_nil pos
  | cons c rest ih =>
    have hc : ¬ c = backtick := hs c (by simp)
    have hs2 : BtFree rest := fun x hx => hs x (by simp [hx])
    rw [findBlocks_cons_none c rest pos (matchFence_cons_nonbt c rest hc)]
    exact ih (pos + 1) hs2

/-- The scan skips a backtick-free region, advancing the offset. -/
theorem findBlocks_skip (p rest : Str) (pos : Nat) (hp : BtFree p) :
    findBlocks (p ++ rest) pos = findBlocks rest (pos + p.length) := by
  induction p generalizing pos with
  | nil => simp [List.nil_append]
  | cons c p2 ih =>
    have hc : ¬ c = backtick := hp c (by simp)
    have hp2 : BtFree p2 := fun x hx => hp x (by simp [hx])
    rw [List.cons_append,
        findBlocks_cons_none c (p2 ++ rest) pos (matchFence_cons_nonbt c _ hc),
        ih (pos + 1) hp2]
    congr 1
    simp
    omega

/-- `takeWhile` of word characters stops exactly at the newline. -/
theorem takeWhile_word_append (w y : Str) (hw : w.all isWordChar = true) :
    (w ++ nl :: y).takeWhile isWordChar = w := by
  induction w with
  | nil =>
    have hnl : isWordChar nl = false := by decide
    simp [List.takeWhile_cons, hnl]
  | cons c w2 ih =>
    obtain ⟨hc, hw2⟩ := by simpa using hw
    simp [List.takeWhile_cons, hc, ih (by simpa using hw2)]

/-- The regex matches exactly a well-formed fenced block at the start of
the string. -/
theorem matchFence_exact (w body post : Str)
    (hw : w.all isWordChar = true) (hbody : BtFree body) :
    matchFence (fence ++ (w ++ nl :: (body ++ fence ++ post))) =
      some (w, body, 7 + w.length + body.length, post) := by
  unfold matchFence
  have hp : List.isPrefixOf fence (fence ++ (w ++ nl :: (body ++ fence ++ post))) = true :=
    isPrefixOf_append_self _ _
  rw [if_pos hp]
  have hdrop : (fence ++ (w ++ nl :: (body ++ fence ++ post))).drop 3
      = w ++ nl :: (body ++ fence ++ post) := rfl
  rw [hdrop]
  rw [takeWhile_word_append w _ hw]
  rw [List.drop_left]
  dsimp only
  rw [if_pos rfl]
  rw [splitOnce_fence_append body post hbody]
  dsimp only
  have hlen : 3 + w.length + 1 + body.length + 3 = 7 + w.length + body.length := by omega
  rw [hlen]

/-- `extract_code_blocks` on a text holding exactly one well-formed block:
one `CodeBlock`, with the stripped interior as `code`. -/
theorem extract_single_block (pre w body post : Str)
    (hpre : BtFree pre) (hw : w.all isWordChar = true)
    (hbody : BtFree body) (hpost : BtFree post) :
    extract_code_blocks (pre ++ (fence ++ (w ++ nl :: (body ++ fence ++ post)))) =
      [{ language := if w = [] then "text".toList else w, code := strip body,
         start := pre.length, stop := pre.length + (7 + w.length + body.length) }] := by
  unfold extract_code_blocks
  rw [findBlocks_skip pre _ 0 hpre]
  have hm := matchFence_exact w body post hw hbody
  have hconv : fence ++ (w ++ nl :: (body ++ fence ++ post))
      = backtick :: (backtick :: backtick :: (w ++ nl :: (body ++ fence ++ post))) := rfl
  rw [hconv] at hm ⊢
  rw [findBlocks_cons_some _ _ _ _ _ _ _ hm]
  rw [findBlocks_btfree post _ hpost]
  simp

/-- `extract_code_blocks` on a text with no fence marker at all. -/
theorem extract_no_marker (t : Str) (h : splitOnce fence t = none) :
    extract_code_blocks t = [] := by
  unfold extract_code_blocks
  suffices hgen : ∀ pos, findBlocks t pos = [] from hgen 0
  induction t with
  | nil => intro pos; exact findBlocks_nil pos
  | cons c rest ih =>
    intro pos
    obtain ⟨hp, hrest⟩ := splitOnce_none_inv fence c rest h
    rw [findBlocks_cons_none c rest pos (matchFence_no_marker c rest hp)]
    exact ih hrest (pos + 1)

/-- An opening fence with no closing marker never produces a match. -/
theorem matchFence_unclosed (rest : Str) (hr : BtFree rest) :
    matchFence (fence ++ rest) = none := by
  unfold matchFence
  rw [if_pos (isPrefixOf_append_self fence rest)]
  have hdrop : (fence ++ rest).drop 3 = rest := rfl
  rw [hdrop]
  cases hrest2 : rest.drop (rest.takeWhile isWordChar).length with
  | nil => rfl
  | cons c rest3 =>
    dsimp only
    by_cases hc : c = nl
    · rw [if_pos hc]
      have hbr3 : BtFree rest3 := by
        intro x hx
        apply hr
        have hx2 : x ∈ c :: rest3 := by simp [hx]
        rw [← hrest2] at hx2
        exact List.mem_of_mem_drop hx2
      rw [splitOnce_btfree rest3 hbr3]
    · rw [if_neg hc]

/-- The marker is not a prefix when only two backticks remain. -/
theorem isPrefixOf_fence_two (rest : Str) (hr : BtFree rest) :
    fence.isPrefixOf (backtick :: backtick :: rest) = false := by
  cases rest with
  | nil => rfl
  | cons r rest2 =>
    have hrb : ¬ r = backtick := hr r (by simp)
    show List.isPrefixOf [backtick, backtick, backtick]
      (backtick :: backtick :: r :: rest2) = false
    simp [List.isPrefixOf]
    intro h
    exact absurd h.symm hrb

/-- The marker is not a prefix when only one backtick remains. -/
theorem isPrefixOf_fence_one (rest : Str) (hr : BtFree rest) :
    fence.isPrefixOf (backtick :: rest) = false := by
  cases rest with
  | nil => rfl
  | cons r rest2 =>
    have hrb : ¬ r = backtick := hr r (by simp)
    show List.isPrefixOf [backtick, backtick, backtick]
      (backtick :: r :: rest2) = false
    simp [List.isPrefixOf]
    intro h
    exact absurd h.symm hrb

/-- An opening fence whose remainder has no further backtick yields no
block: the regex requires a closing fence. -/
theorem extract_unclosed (pre rest : Str) (hpre : BtFree pre) (hr : BtFree rest) :
    extract_code_blocks (pre ++ (fence ++ rest)) = [] := by
  unfold extract_code_blocks
  rw [findBlocks_skip pre _ 0 hpre]
  have h1 : matchFence (fence ++ rest) = none := matchFence_unclosed rest hr
  have hconv : fence ++ rest = backtick :: (backtick :: backtick :: rest) := rfl
  rw [hconv] at h1 ⊢
  rw [findBlocks_cons_none _ _ _ h1]
  rw [findBlocks_cons_none _ _ _
    (matchFence_no_marker _ _ (isPrefixOf_fence_two rest hr))]
  rw [findBlocks_cons_none _ _ _
    (matchFence_no_marker _ _ (isPrefixOf_fence_one rest hr))]
  exact findBlocks_btfree rest _ hr

/-- C5: `extract_code_blocks` returns the empty list on text containing no
fence marker; on a text that is exactly one well-formed fenced block
(backtick-free prose around a fence, word-character language token, newline,
backtick-free content, closing fence) it returns exactly that block with the
interior stripped of surrounding whitespace; and an opening fence followed
by backtick-free text (no closing marker) is never reported. -/
theorem c5_extract_code_blocks_spec :
    (∀ t : Str, splitOnce fence t = none → extract_code_blocks t = [])
    ∧ (∀ pre w body post : Str, BtFree pre → w.all isWordChar = true →
        BtFree body → BtFree post →
        extract_code_blocks (pre ++ (fence ++ (w ++ nl :: (body ++ fence ++ post)))) =
          [{ language := if w = [] then "text".toList else w, code := strip body,
             start := pre.length, stop := pre.length + (7 + w.length + body.length) }])
    ∧ (∀ pre rest : Str, BtFree pre → BtFree rest →
        extract_code_blocks (pre ++ (fence ++ rest)) = []) :=
  ⟨extract_no_marker, extract_single_block, extract_unclosed⟩

/-- Witness for `c5_extract_code_blocks_spec` on three concrete texts. -/
theorem c5_extract_code_blocks_spec_witness :
    splitOnce fence "no fences here".toList = none
    ∧ extract_code_blocks "no fences here".toList = []
    ∧ (BtFree "pre ".toList ∧ ("python".toList).all isWordChar = true
        ∧ BtFree "print(42)\n".toList ∧ BtFree " post".toList)
    ∧ extract_code_blocks ("pre ".toList ++ (fence ++ ("python".toList
          ++ nl :: ("print(42)\n".toList ++ fence ++ " post".toList)))) =
        [{ language := if "python".toList = [] then "text".toList else "python".toList,
           code := strip "print(42)\n".toList,
           start := ("pre ".toList).length,
           stop := ("pre ".toList).length
             + (7 + ("python".toList).length + ("print(42)\n".toList).length) }]
    ∧ (BtFree "open only ".toList ∧ BtFree "py\nabc".toList)
    ∧ extract_code_blocks ("open only ".toList ++ (fence ++ "py\nabc".toList)) = [] :=
  ⟨by decide,
   c5_extract_code_blocks_spec.1 "no fences here".toList (by decide),
   ⟨by decide, by decide, by decide, by decide⟩,
   c5_extract_code_blocks_spec.2.1 "pre ".toList "python".toList
     "print(42)\n".toList " post".toList (by decide) (by decide) (by decide) (by decide),
   ⟨by decide, by decide⟩,
   c5_extract_code_blocks_spec.2.2 "open only ".toList "py\nabc".toList
     (by decide) (by decide)⟩

/-! ## C1: round-trip of a single complete fenced block -/

/-- Unfolding of the chunk loop on a cons. -/
theorem runChunks_cons (st : StreamState) (c : Str) (cs : List Str) :
    runChunks st (c :: cs) =
      ((runChunks (processContent st c).1 cs).1,
       (processContent st c).2.1 ++ (runChunks (processContent st c).1 cs).2.1,
       (processContent st c).2.2 ++ (runChunks (processContent st c).1 cs).2.2) := rfl

/-- C1 counterexample: the single chunk `"A```\nx```"` — whose text contains
exactly one complete fenced block (first conjunct, via the buffered
extractor) and whose chunking bisects no marker — refutes the claim: the
run emits one create and nothing else, so the concatenated event content is
not the input (the pre-marker text `"A"` and the closing fence are absent
and the fence is re-rendered), no finalize is produced (the second marker
in the same chunk is swallowed into the code buffer), and the before-text
is never emitted as a text fragment. -/
theorem c1_counterexample :
    extract_code_blocks "A```\nx```".toList
        = [{ language := "text".toList, code := "x".toList, start := 1, stop := 9 }]
    ∧ (runChunks initState ["A```\nx```".toList]).2.1
        = [Event.create 0 "Text Code".toList "```text\nx```".toList]
    ∧ ((runChunks initState ["A```\nx```".toList]).2.1.map eventContent).flatten
        ≠ "A```\nx```".toList
    ∧ (runChunks initState ["A```\nx```".toList]).2.1.filter isFinalEvent = []
    ∧ (runChunks initState ["A```\nx```".toList]).2.1.filter isTextEvent = [] := by
  refine ⟨?_, by decide, by decide, by decide, by decide⟩
  have h := extract_single_block "A".toList [] "x".toList []
    (by decide) (by decide) (by decide) (by decide)
  have hconv : "A```\nx```".toList
      = "A".toList ++ (fence ++ ([] ++ nl :: ("x".toList ++ fence ++ []))) := by decide
  rw [hconv, h]
  decide

/-- C1 (amended): when every chunk around the block is marker-free and the
opening and closing markers arrive in distinct chunks (each containing one
marker occurrence), the run emits exactly: one text event per leading
chunk, one create whose content is the re-rendered fence header plus the
initial code slice, one update per middle chunk, one finalize carrying the
closing chunk's before-text, and one text event per trailing chunk — with
exactly one artifact created and stored.  The pre-marker text of the
opening chunk is accumulated in `pre_code_text`, never emitted, and the
closing fence and the closing chunk's remainder are dropped, so the
concatenated event content does not reproduce the input byte-for-byte. -/
theorem c1_single_block_stream (pres mids posts : List Str)
    (copen cclose ob oa cb ca : Str)
    (hpres : ∀ c ∈ pres, splitOnce fence c = none)
    (hmids : ∀ c ∈ mids, splitOnce fence c = none)
    (hposts : ∀ c ∈ posts, splitOnce fence c = none)
    (hopen : splitOnce fence copen = some (ob, oa))
    (hclose : splitOnce fence cclose = some (cb, ca)) :
    runChunks initState (pres ++ copen :: (mids ++ cclose :: posts)) =
      ({ response_text := pres.flatten ++ copen ++ mids.flatten ++ cclose ++ posts.flatten,
         in_code_block := false,
         code_buffer := (parseOpen oa).2 ++ mids.flatten ++ cb,
         language := (parseOpen oa).1,
         artifact_id := some 0,
         pre_code_text := ob,
         next_id := 1 },
       pres.map Event.text
         ++ Event.create 0 (artifactName (parseOpen oa).1)
              (fence ++ (parseOpen oa).1 ++ nl :: (parseOpen oa).2)
         :: (mids.map (Event.update (some 0) (artifactName (parseOpen oa).1))
           ++ Event.final (some 0) (artifactName (parseOpen oa).1) cb
           :: posts.map Event.text),
       [Stored.artifact 0 (artifactName (parseOpen oa).1)
          (fence ++ (parseOpen oa).1 ++ nl :: (parseOpen oa).2)]) := by
  have hopenStep : processContent { initState with response_text := pres.flatten } copen
      = ({ response_text := pres.flatten ++ copen,
           in_code_block := true,
           code_buffer := (parseOpen oa).2,
           language := (parseOpen oa).1,
           artifact_id := some 0,
           pre_code_text := ob,
           next_id := 1 },
         [Event.create 0 (artifactName (parseOpen oa).1)
            (fence ++ (parseOpen oa).1 ++ nl :: (parseOpen oa).2)],
         [Stored.artifact 0 (artifactName (parseOpen oa).1)
            (fence ++ (parseOpen oa).1 ++ nl :: (parseOpen oa).2)]) := by
    simp [processContent, initState, hopen]
  have hcloseStep : ∀ stC : StreamState, stC.in_code_block = true →
      processContent stC cclose
        = ({ stC with response_text := stC.response_text ++ cclose,
                      code_buffer := stC.code_buffer ++ cb,
                      in_code_block := false },
           [Event.final stC.artifact_id (artifactName stC.language) cb], []) := by
    intro stC hin
    simp [processContent, hin, hclose]
  rw [runChunks_append, runChunks_text_run pres initState rfl hpres]
  dsimp only
  rw [runChunks_cons]
  simp only [initState, List.nil_append] at hopenStep ⊢
  rw [hopenStep]
  dsimp only
  rw [runChunks_append, runChunks_update_run mids _ rfl hmids]
  dsimp only
  rw [runChunks_cons]
  rw [hcloseStep _ rfl]
  dsimp only
  rw [runChunks_text_run posts _ rfl hposts]
  dsimp only
  simp [List.append_assoc]

/-- Witness for `c1_single_block_stream`, with the opening marker preceded
by text in its chunk and the closing chunk carrying a dropped remainder. -/
theorem c1_single_block_stream_witness :
    (∀ c ∈ (["hi "].map String.toList), splitOnce fence c = none)
    ∧ (∀ c ∈ (["more"].map String.toList), splitOnce fence c = none)
    ∧ (∀ c ∈ ([" bye"].map String.toList), splitOnce fence c = none)
    ∧ splitOnce fence "x```py\ncode".toList = some ("x".toList, "py\ncode".toList)
    ∧ splitOnce fence "end```tail".toList = some ("end".toList, "tail".toList)
    ∧ runChunks initState (["hi "].map String.toList
          ++ "x```py\ncode".toList :: (["more"].map String.toList
            ++ "end```tail".toList :: ([" bye"].map String.toList))) =
      ({ response_text := (["hi "].map String.toList).flatten ++ "x```py\ncode".toList
             ++ (["more"].map String.toList).flatten ++ "end```tail".toList
             ++ ([" bye"].map String.toList).flatten,
         in_code_block := false,
         code_buffer := (parseOpen "py\ncode".toList).2
             ++ (["more"].map String.toList).flatten ++ "end".toList,
         language := (parseOpen "py\ncode".toList).1,
         artifact_id := some 0,
         pre_code_text := "x".toList,
         next_id := 1 },
       (["hi "].map String.toList).map Event.text
         ++ Event.create 0 (artifactName (parseOpen "py\ncode".toList).1)
              (fence ++ (parseOpen "py\ncode".toList).1 ++ nl :: (parseOpen "py\ncode".toList).2)
         :: ((["more"].map String.toList).map
                (Event.update (some 0) (artifactName (parseOpen "py\ncode".toList).1))
           ++ Event.final (some 0) (artifactName (parseOpen "py\ncode".toList).1) "end".toList
           :: ([" bye"].map String.toList).map Event.text),
       [Stored.artifact 0 (artifactName (parseOpen "py\ncode".toList).1)
          (fence ++ (parseOpen "py\ncode".toList).1 ++ nl :: (parseOpen "py\ncode".toList).2)]) :=
  ⟨by decide, by decide, by decide, by decide, by decide,
   c1_single_block_stream (["hi "].map String.toList) (["more"].map String.toList)
     ([" bye"].map String.toList) "x```py\ncode".toList "end```tail".toList
     "x".toList "py\ncode".toList "end".toList "tail".toList
     (by decide) (by decide) (by decide) (by decide) (by decide)⟩

/-! ## C6: block selection and naming (spec-modelled) -/

/-- The running `foldl` of `pick_block` always lands on the leftmost block
of maximal code length among the accumulator followed by the list. -/
theorem pick_foldl_spec (bs : List CodeBlock) (best : CodeBlock) :
    ∃ pre suf,
      best :: bs = pre ++ (bs.foldl (fun b x =>
          if b.code.length < x.code.length then x else b) best) :: suf
      ∧ (∀ x ∈ pre, x.code.length < (bs.foldl (fun b x =>
          if b.code.length < x.code.length then x else b) best).code.length)
      ∧ (∀ x ∈ suf, x.code.length ≤ (bs.foldl (fun b x =>
          if b.code.length < x.code.length then x else b) best).code.length) := by
  induction bs generalizing best with
  | nil => exact ⟨[], [], rfl, by simp, by simp⟩
  | cons x bs ih =>
    rw [List.foldl_cons]
    by_cases hlt : best.code.length < x.code.length
    · rw [if_pos hlt]
      obtain ⟨pre, suf, heq, hpre, hsuf⟩ := ih x
      refine ⟨best :: pre, suf, by rw [List.cons_append, ← heq], ?_, hsuf⟩
      intro y hy
      rcases List.mem_cons.mp hy with h | h
      · have hx : x.code.length ≤ (bs.foldl (fun b x =>
            if b.code.length < x.code.length then x else b) x).code.length := by
          have hxmem : x ∈ x :: bs := by simp
          rw [heq] at hxmem
          rcases List.mem_append.mp hxmem with h2 | h2
          · exact le_of_lt (hpre x h2)
          · rcases List.mem_cons.mp h2 with h3 | h3
            · exact le_of_eq (congrArg (fun b => b.code.length) h3)
            · exact hsuf x h3
        subst h
        omega
      · exact hpre y h
    · rw [if_neg hlt]
      obtain ⟨pre, suf, heq, hpre, hsuf⟩ := ih best
      cases pre with
      | nil =>
        rw [List.nil_append, List.cons.injEq] at heq
        obtain ⟨hb, hs⟩ := heq
        refine ⟨[], x :: suf, ?_, by simp, ?_⟩
        · simp only [List.nil_append]
          rw [← hb, ← hs]
        · intro y hy
          rcases List.mem_cons.mp hy with h | h
          · subst h; rw [← hb]; omega
          · exact hsuf y h
      | cons p pre2 =>
        rw [List.cons_append, List.cons.injEq] at heq
        obtain ⟨hb, hs⟩ := heq
        refine ⟨best :: x :: pre2, suf, ?_, ?_, hsuf⟩
        · rw [List.cons_append, List.cons_append, ← hs]
        · intro y hy
          have hbestpre : best.code.length < (bs.foldl (fun b x =>
              if b.code.length < x.code.length then x else b) best).code.length := by
            have hmem : best ∈ p :: pre2 := by rw [hb]; simp
            exact hpre best hmem
          rcases List.mem_cons.mp hy with h | h
          · subst h; exact hbestpre
          · rcases List.mem_cons.mp h with h2 | h2
            · subst h2; omega
            · apply hpre
              simp [h2]

/-- C6 (spec-modelled): `select_block` on a non-empty list picks the block
of maximum code length, breaking ties by leftmost position (every earlier
block is strictly shorter, every block is no longer), and names the result
by `derive_name` — the first short non-copyright single-line comment among
the first three code lines, else the title-cased-language fallback. -/
theorem c6_block_selector (blocks : List CodeBlock) (hne : ¬ blocks = []) :
    ∃ chosen pre suf,
      pick_block blocks = some chosen
      ∧ select_block blocks = some (chosen, derive_name chosen.language chosen.code)
      ∧ blocks = pre ++ chosen :: suf
      ∧ (∀ x ∈ pre, x.code.length < chosen.code.length)
      ∧ (∀ x ∈ blocks, x.code.length ≤ chosen.code.length) := by
  cases blocks with
  | nil => exact absurd rfl hne
  | cons b bs =>
    obtain ⟨pre, suf, heq, hpre, hsuf⟩ := pick_foldl_spec bs b
    refine ⟨_, pre, suf, rfl, rfl, heq, hpre, ?_⟩
    intro x hx
    have hx2 : x ∈ b :: bs := hx
    rw [heq] at hx2
    rcases List.mem_append.mp hx2 with h | h
    · exact le_of_lt (hpre x h)
    · rcases List.mem_cons.mp h with h2 | h2
      · exact le_of_eq (congrArg (fun b => b.code.length) h2)
      · exact hsuf x h2

/-- Witness for `c6_block_selector` on two concrete blocks of lengths 5 and
40 (the longer, rightmost one wins), plus concrete checks of the naming
rule: a short leading comment is used verbatim, a copyright comment falls
back to the title-cased-language default, and a tie picks the leftmost. -/
theorem c6_block_selector_witness :
    (¬ ([{ language := "js".toList, code := "short".toList, start := 0, stop := 10 },
         { language := "python".toList,
           code := "# Fibonacci calculator\ndef fib(n): pass".toList,
           start := 20, stop := 60 }] : List CodeBlock) = [])
    ∧ (∃ chosen pre suf,
        pick_block [{ language := "js".toList, code := "short".toList, start := 0, stop := 10 },
           { language := "python".toList,
             code := "# Fibonacci calculator\ndef fib(n): pass".toList,
             start := 20, stop := 60 }] = some chosen
        ∧ select_block [{ language := "js".toList, code := "short".toList, start := 0, stop := 10 },
             { language := "python".toList,
               code := "# Fibonacci calculator\ndef fib(n): pass".toList,
               start := 20, stop := 60 }]
            = some (chosen, derive_name chosen.language chosen.code)
        ∧ [{ language := "js".toList, code := "short".toList, start := 0, stop := 10 },
           { language := "python".toList,
             code := "# Fibonacci calculator\ndef fib(n): pass".toList,
             start := 20, stop := 60 }] = pre ++ chosen :: suf
        ∧ (∀ x ∈ pre, x.code.length < chosen.code.length)
        ∧ (∀ x ∈ ([{ language := "js".toList, code := "short".toList, start := 0, stop := 10 },
             { language := "python".toList,
               code := "# Fibonacci calculator\ndef fib(n): pass".toList,
               start := 20, stop := 60 }] : List CodeBlock), x.code.length ≤ chosen.code.length))
    ∧ select_block [{ language := "js".toList, code := "short".toList, start := 0, stop := 10 },
         { language := "python".toList,
           code := "# Fibonacci calculator\ndef fib(n): pass".toList,
           start := 20, stop := 60 }]
        = some ({ language := "python".toList,
                  code := "# Fibonacci calculator\ndef fib(n): pass".toList,
                  start := 20, stop := 60 }, "Fibonacci calculator".toList)
    ∧ derive_name "python".toList "# Copyright 2025 someone\nx = 1".toList
        = "Python Code".toList
    ∧ pick_block [{ language := "a".toList, code := "abc".toList, start := 0, stop := 1 },
         { language := "b".toList, code := "xyz".toList, start := 2, stop := 3 }]
        = some { language := "a".toList, code := "abc".toList, start := 0, stop := 1 } :=
  ⟨by decide,
   c6_block_selector
     [{ language := "js".toList, code := "short".toList, start := 0, stop := 10 },
      { language := "python".toList,
        code := "# Fibonacci calculator\ndef fib(n): pass".toList,
        start := 20, stop := 60 }] (by decide),
   by decide, by decide, by decide⟩

end CodingAgent
